import Mathlib

/-!
Verification of the bounded queueing port in src/src/main.rs.

The Rust program implements a fixed-slot circular message buffer:
`SIZE` bytes per message, `MSGS` slots, a flat byte buffer of
`SIZE * MSGS` bytes, a write index, a read index and a message count.
We embed the state as a structure, the byte buffer as a function
`Nat → Nat` (only indices below `SIZE * MSGS` are ever touched), and the
two copy loops as structural recursions over the iteration count.
-/

namespace QPort

/-- `const SIZE: usize = 256;` — fixed message width in bytes. -/
def SIZE : Nat := 256

/-- `const MSGS: usize = 10;` — capacity: number of slots. -/
def MSGS : Nat := 10

/-- `enum QueueError { FullBuffer, EmptyBuffer }` from src/src/main.rs. -/
inductive QueueError where
  | FullBuffer
  | EmptyBuffer
deriving DecidableEq

/-- `struct Message([u8; SIZE]);` — a fixed array of `SIZE` bytes.
Bytes are modelled as `Nat` (the program never does arithmetic on them,
only copies, so the `u8` range plays no role). -/
@[ext]
structure Message where
  data : Fin SIZE → Nat

/-- Reading byte `i` of a message by a `Nat` index; the loops in the
program only read indices `i < SIZE`, where this equals `data i`. -/
def Message.byte (m : Message) (i : Nat) : Nat :=
  if h : i < SIZE then m.data ⟨i, h⟩ else 0

/-- State of `struct QueueingPort`: the flat byte buffer and the three
counters. The atomics are loaded and stored strictly sequentially inside
each operation, so they embed as plain numbers. -/
structure QueueingPort where
  buffer : Nat → Nat
  write_index : Nat
  read_index : Nat
  message_count : Nat

/-- Pointwise update of the byte buffer: `buffer[k] = v`. -/
def upd (f : Nat → Nat) (k v : Nat) : Nat → Nat :=
  fun j => if j = k then v else f j

/-- The enqueue copy loop `for i in 0..n { buffer[start + i] = msg[i] }`,
unrolled by iteration count: `copyBytes buf start msg n` is the buffer
after the first `n` iterations. -/
def copyBytes (buf : Nat → Nat) (start : Nat) (msg : Nat → Nat) : Nat → (Nat → Nat)
  | 0 => buf
  | n + 1 => upd (copyBytes buf start msg n) (start + n) (msg n)

/-- The dequeue copy loop: `let mut msg_array = [0u8; SIZE];
for i in 0..n { msg_array[i] = buffer[start + i] }`. -/
def readBytes (buf : Nat → Nat) (start : Nat) : Nat → (Nat → Nat)
  | 0 => fun _ => 0
  | n + 1 => upd (readBytes buf start n) n (buf (start + n))

/-- `QueueingPort::new()` — fresh shared-memory buffer (zero-filled pages),
both cursors and the count start at zero. -/
def QueueingPort.new : QueueingPort :=
  { buffer := fun _ => 0
    write_index := 0
    read_index := 0
    message_count := 0 }

/-- `fn enqueue(&mut self, message: Message) -> Result<(), QueueError>`.
Returns the result together with the state after the call. -/
def enqueue (s : QueueingPort) (message : Message) :
    Except QueueError Unit × QueueingPort :=
  if MSGS ≤ s.message_count then
    (Except.error QueueError.FullBuffer, s)
  else
    let write_index := s.write_index
    let start := write_index * SIZE
    let buffer := copyBytes s.buffer start message.byte SIZE
    (Except.ok (),
      { s with
        buffer := buffer
        write_index := (write_index + 1) % MSGS
        message_count := s.message_count + 1 })

/-- `fn dequeue(&mut self) -> Result<Message, QueueError>`.
Returns the result together with the state after the call. -/
def dequeue (s : QueueingPort) : Except QueueError Message × QueueingPort :=
  if s.message_count = 0 then
    (Except.error QueueError.EmptyBuffer, s)
  else
    let read_index := s.read_index
    let start := read_index * SIZE
    let msg_array := readBytes s.buffer start SIZE
    (Except.ok ⟨fun i => msg_array i.val⟩,
      { s with
        read_index := (read_index + 1) % MSGS
        message_count := s.message_count - 1 })

/-- One external call to the port: an enqueue of some message, or a dequeue. -/
inductive Op where
  | enq (m : Message)
  | deq

/-- The state after one call (the returned value is dropped). -/
def step (s : QueueingPort) : Op → QueueingPort
  | Op.enq m => (enqueue s m).2
  | Op.deq => (dequeue s).2

/-- The state after a sequence of calls. -/
def run (s : QueueingPort) : List Op → QueueingPort
  | [] => s
  | op :: ops => run (step s op) ops

/-- The state invariant: the count never exceeds capacity, both cursors
stay below capacity, and the cursor difference agrees with the count
modulo capacity. -/
def Inv (s : QueueingPort) : Prop :=
  s.message_count ≤ MSGS ∧
  s.write_index < MSGS ∧
  s.read_index < MSGS ∧
  ((s.write_index : Int) - (s.read_index : Int)) % (MSGS : Int)
    = (s.message_count : Int) % (MSGS : Int)

instance (s : QueueingPort) : Decidable (Inv s) := by
  unfold Inv; infer_instance

/-- The message stored in slot `idx` of a buffer: the `SIZE` bytes starting
at offset `idx * SIZE`. -/
def slotMessage (buf : Nat → Nat) (idx : Nat) : Message :=
  ⟨fun i => buf (idx * SIZE + i.val)⟩

/-- Abstraction function: the messages currently held by the port, oldest
first — slot `readCursor`, then `readCursor + 1 (mod MSGS)`, and so on for
`message_count` slots. -/
def contents (s : QueueingPort) : List Message :=
  (List.range s.message_count).map
    (fun k => slotMessage s.buffer ((s.read_index + k) % MSGS))

/-- The payloads of the successful enqueues of a call sequence, in call
order. -/
def enqueuedList (s : QueueingPort) : List Op → List Message
  | [] => []
  | Op.enq m :: ops =>
    match (enqueue s m).1 with
    | Except.ok _ => m :: enqueuedList (step s (Op.enq m)) ops
    | Except.error _ => enqueuedList (step s (Op.enq m)) ops
  | Op.deq :: ops => enqueuedList (step s Op.deq) ops

/-- The payloads returned by the successful dequeues of a call sequence, in
call order. -/
def dequeuedList (s : QueueingPort) : List Op → List Message
  | [] => []
  | Op.enq m :: ops => dequeuedList (step s (Op.enq m)) ops
  | Op.deq :: ops =>
    match (dequeue s).1 with
    | Except.ok msg => msg :: dequeuedList (step s Op.deq) ops
    | Except.error _ => dequeuedList (step s Op.deq) ops

/-- Number of successful enqueues in a call sequence. -/
def succEnqs (s : QueueingPort) : List Op → Nat
  | [] => 0
  | Op.enq m :: ops =>
    (match (enqueue s m).1 with
     | Except.ok _ => 1
     | Except.error _ => 0) + succEnqs (step s (Op.enq m)) ops
  | Op.deq :: ops => succEnqs (step s Op.deq) ops

/-- Number of successful dequeues in a call sequence. -/
def succDeqs (s : QueueingPort) : List Op → Nat
  | [] => 0
  | Op.enq m :: ops => succDeqs (step s (Op.enq m)) ops
  | Op.deq :: ops =>
    (match (dequeue s).1 with
     | Except.ok _ => 1
     | Except.error _ => 0) + succDeqs (step s Op.deq) ops

/-- A state is reachable if some call sequence from a fresh port produces it. -/
def Reachable (s : QueueingPort) : Prop :=
  ∃ ops : List Op, run QueueingPort.new ops = s

/-- Modelled from the spec: src/src/main.rs declares `Message` as a fixed
`[u8; SIZE]` array with no fallible constructor, and its error enum has no
invalid-size variant; the repository's other variants (not included under
src/) provide construction from raw bytes. The spec says: "Constructed from
raw bytes of exactly messageSize length; construction fails with
InvalidMessageSize otherwise." -/
inductive MessageError where
  | InvalidMessageSize
deriving DecidableEq

/-- Modelled from the spec: fallible construction of a `Message` from raw
bytes — succeeds exactly on input of length `SIZE`, otherwise returns the
`InvalidMessageSize` error as an ordinary result value. -/
def Message.fromBytes (bytes : List Nat) : Except MessageError Message :=
  if h : bytes.length = SIZE then
    Except.ok ⟨fun i => bytes.get ⟨i.val, by rw [h]; exact i.isLt⟩⟩
  else
    Except.error MessageError.InvalidMessageSize

/-- A concrete message with every byte set to 1 (used as test input). -/
def onesMsg : Message := ⟨fun _ => 1⟩

/-- The port after enqueuing `onesMsg` into a fresh port: one message held. -/
def portWithOne : QueueingPort := (enqueue QueueingPort.new onesMsg).2

/-- A concrete call sequence: one enqueue then one dequeue. -/
def wOps : List Op := [Op.enq onesMsg, Op.deq]

/-- A concrete state at full occupancy (used as test input). -/
def fullPort : QueueingPort :=
  { buffer := fun _ => 0
    write_index := 0
    read_index := 0
    message_count := MSGS }

/-! ### Characterization of the two copy loops -/

theorem copyBytes_spec (buf : Nat → Nat) (start : Nat) (msg : Nat → Nat)
    (n j : Nat) :
    copyBytes buf start msg n j =
      if start ≤ j ∧ j < start + n then msg (j - start) else buf j := by
  induction n with
  | zero =>
    show buf j = if start ≤ j ∧ j < start + 0 then msg (j - start) else buf j
    rw [if_neg (by omega)]
  | succ n ih =>
    by_cases h : j = start + n
    · subst h
      have hc : start ≤ start + n ∧ start + n < start + (n + 1) := by omega
      simp [copyBytes, upd, hc]
    · simp only [copyBytes, upd, if_neg h, ih]
      by_cases h2 : start ≤ j ∧ j < start + n
      · rw [if_pos h2, if_pos (show start ≤ j ∧ j < start + (n + 1) by omega)]
      · rw [if_neg h2, if_neg (show ¬ (start ≤ j ∧ j < start + (n + 1)) by omega)]

theorem readBytes_spec (buf : Nat → Nat) (start : Nat) (n j : Nat) :
    readBytes buf start n j = if j < n then buf (start + j) else 0 := by
  induction n with
  | zero => simp [readBytes]
  | succ n ih =>
    by_cases h : j = n
    · subst h
      simp [readBytes, upd]
    · simp only [readBytes, upd, if_neg h, ih]
      by_cases h2 : j < n
      · rw [if_pos h2, if_pos (show j < n + 1 by omega)]
      · rw [if_neg h2, if_neg (show ¬ j < n + 1 by omega)]

/-! ### Branch characterizations of the two operations -/

theorem enqueue_full (s : QueueingPort) (m : Message)
    (h : MSGS ≤ s.message_count) :
    enqueue s m = (Except.error QueueError.FullBuffer, s) := by
  simp [enqueue, h]

theorem enqueue_ok (s : QueueingPort) (m : Message)
    (h : s.message_count < MSGS) :
    enqueue s m = (Except.ok (),
      { s with
        buffer := copyBytes s.buffer (s.write_index * SIZE) m.byte SIZE
        write_index := (s.write_index + 1) % MSGS
        message_count := s.message_count + 1 }) := by
  simp [enqueue, Nat.not_le.mpr h]

theorem dequeue_empty (s : QueueingPort) (h : s.message_count = 0) :
    dequeue s = (Except.error QueueError.EmptyBuffer, s) := by
  simp [dequeue, h]

theorem dequeue_ok (s : QueueingPort) (h : s.message_count ≠ 0) :
    dequeue s = (Except.ok
        ⟨fun i => readBytes s.buffer (s.read_index * SIZE) SIZE i.val⟩,
      { s with
        read_index := (s.read_index + 1) % MSGS
        message_count := s.message_count - 1 }) := by
  simp [dequeue, h]

theorem enqueue_ok_fst (s : QueueingPort) (m : Message)
    (h : s.message_count < MSGS) : (enqueue s m).1 = Except.ok () := by
  rw [enqueue_ok s m h]

theorem enqueue_ok_buffer (s : QueueingPort) (m : Message)
    (h : s.message_count < MSGS) :
    (enqueue s m).2.buffer = copyBytes s.buffer (s.write_index * SIZE) m.byte SIZE := by
  rw [enqueue_ok s m h]

theorem enqueue_ok_write (s : QueueingPort) (m : Message)
    (h : s.message_count < MSGS) :
    (enqueue s m).2.write_index = (s.write_index + 1) % MSGS := by
  rw [enqueue_ok s m h]

theorem enqueue_ok_read (s : QueueingPort) (m : Message)
    (h : s.message_count < MSGS) :
    (enqueue s m).2.read_index = s.read_index := by
  rw [enqueue_ok s m h]

theorem enqueue_ok_count (s : QueueingPort) (m : Message)
    (h : s.message_count < MSGS) :
    (enqueue s m).2.message_count = s.message_count + 1 := by
  rw [enqueue_ok s m h]

theorem dequeue_ok_fst (s : QueueingPort) (h : s.message_count ≠ 0) :
    (dequeue s).1 = Except.ok (slotMessage s.buffer s.read_index) := by
  rw [dequeue_ok s h]
  refine congrArg Except.ok ?_
  ext i
  simp only [slotMessage]
  rw [readBytes_spec, if_pos i.isLt]

theorem dequeue_ok_buffer (s : QueueingPort) (h : s.message_count ≠ 0) :
    (dequeue s).2.buffer = s.buffer := by
  rw [dequeue_ok s h]

theorem dequeue_ok_write (s : QueueingPort) (h : s.message_count ≠ 0) :
    (dequeue s).2.write_index = s.write_index := by
  rw [dequeue_ok s h]

theorem dequeue_ok_read (s : QueueingPort) (h : s.message_count ≠ 0) :
    (dequeue s).2.read_index = (s.read_index + 1) % MSGS := by
  rw [dequeue_ok s h]

theorem dequeue_ok_count (s : QueueingPort) (h : s.message_count ≠ 0) :
    (dequeue s).2.message_count = s.message_count - 1 := by
  rw [dequeue_ok s h]

theorem step_enq_full (s : QueueingPort) (m : Message)
    (h : MSGS ≤ s.message_count) : step s (Op.enq m) = s := by
  simp [step, enqueue_full s m h]

theorem step_deq_empty (s : QueueingPort) (h : s.message_count = 0) :
    step s Op.deq = s := by
  simp [step, dequeue_empty s h]

/-! ### The invariant: establishment and preservation -/

theorem inv_new : Inv QueueingPort.new := by
  refine ⟨by simp [QueueingPort.new, MSGS], ?_, ?_, ?_⟩ <;>
    simp [QueueingPort.new, MSGS]

theorem inv_step (s : QueueingPort) (op : Op) (h : Inv s) : Inv (step s op) := by
  obtain ⟨h1, h2, h3, h4⟩ := h
  cases op with
  | enq m =>
    by_cases hfull : MSGS ≤ s.message_count
    · simpa [step, enqueue_full s m hfull, Inv] using ⟨h1, h2, h3, h4⟩
    · rw [step, enqueue_ok s m (Nat.not_le.mp hfull)]
      refine ⟨?_, ?_, h3, ?_⟩
      · simp only [MSGS] at *; omega
      · simp only [MSGS] at *; omega
      · simp only [MSGS] at *
        push_cast
        omega
  | deq =>
    by_cases hempty : s.message_count = 0
    · simpa [step, dequeue_empty s hempty, Inv] using ⟨h1, h2, h3, h4⟩
    · rw [step, dequeue_ok s hempty]
      refine ⟨?_, h2, ?_, ?_⟩
      · simp only [MSGS] at *; omega
      · simp only [MSGS] at *; omega
      · simp only [MSGS] at *
        push_cast
        omega

theorem inv_run (ops : List Op) (s : QueueingPort) (h : Inv s) :
    Inv (run s ops) := by
  induction ops generalizing s with
  | nil => exact h
  | cons op ops ih => exact ih (step s op) (inv_step s op h)

theorem reachable_inv (s : QueueingPort) (h : Reachable s) : Inv s := by
  obtain ⟨ops, rfl⟩ := h
  exact inv_run ops QueueingPort.new inv_new

/-! ### The abstraction: queue contents as a list -/

theorem write_eq_read_add_count (s : QueueingPort) (h : Inv s) :
    s.write_index = (s.read_index + s.message_count) % MSGS := by
  obtain ⟨h1, h2, h3, h4⟩ := h
  simp only [MSGS] at *
  omega

theorem contents_length (s : QueueingPort) :
    (contents s).length = s.message_count := by
  simp [contents]

theorem contents_new : contents QueueingPort.new = [] := by
  simp [contents, QueueingPort.new]

theorem contents_enqueue (s : QueueingPort) (m : Message) (hInv : Inv s)
    (h : s.message_count < MSGS) :
    contents (enqueue s m).2 = contents s ++ [m] := by
  have hw := write_eq_read_add_count s hInv
  obtain ⟨h1, h2, h3, h4⟩ := hInv
  simp only [contents, enqueue_ok_count s m h, enqueue_ok_read s m h,
    enqueue_ok_buffer s m h]
  rw [List.range_succ, List.map_append]
  congr 1
  · refine List.map_congr_left ?_
    intro k hk
    rw [List.mem_range] at hk
    ext i
    have hi := i.isLt
    simp only [slotMessage]
    rw [copyBytes_spec]
    split
    · rename_i hcond
      exfalso
      simp only [MSGS, SIZE] at hw hk h h3 hi hcond
      omega
    · rfl
  · simp only [List.map_cons, List.map_nil]
    congr 1
    ext i
    have hi := i.isLt
    simp only [slotMessage]
    rw [← hw, copyBytes_spec]
    split
    · rename_i hcond
      rw [Nat.add_sub_cancel_left, Message.byte, dif_pos i.isLt]
    · rename_i hcond
      exfalso
      exact hcond ⟨Nat.le_add_right _ _, by omega⟩

set_option maxRecDepth 4000 in
theorem contents_dequeue (s : QueueingPort) (hInv : Inv s)
    (h : s.message_count ≠ 0) :
    contents s = slotMessage s.buffer s.read_index :: contents (dequeue s).2 := by
  obtain ⟨h1, h2, h3, h4⟩ := hInv
  simp only [contents, dequeue_ok_count s h, dequeue_ok_read s h,
    dequeue_ok_buffer s h]
  have hc : s.message_count = (s.message_count - 1) + 1 := by omega
  rw [hc, Nat.add_sub_cancel, List.range_succ_eq_map, List.map_cons, List.map_map]
  congr 1
  · show slotMessage s.buffer ((s.read_index + 0) % MSGS)
        = slotMessage s.buffer s.read_index
    refine congrArg (slotMessage s.buffer) ?_
    simp only [MSGS] at h3 ⊢
    omega
  · refine List.map_congr_left ?_
    intro k hk
    show slotMessage s.buffer ((s.read_index + Nat.succ k) % MSGS)
        = slotMessage s.buffer (((s.read_index + 1) % MSGS + k) % MSGS)
    refine congrArg (slotMessage s.buffer) ?_
    simp only [MSGS]
    omega

/-! ### FIFO: dequeued payloads are a prefix of enqueued payloads -/

theorem fifo_main (ops : List Op) (s : QueueingPort) (hInv : Inv s) :
    contents s ++ enqueuedList s ops
      = dequeuedList s ops ++ contents (run s ops) := by
  induction ops generalizing s with
  | nil => simp [enqueuedList, dequeuedList, run]
  | cons op ops ih =>
    cases op with
    | enq m =>
      by_cases hfull : MSGS ≤ s.message_count
      · have hs := step_enq_full s m hfull
        simp only [enqueuedList, dequeuedList, run, enqueue_full s m hfull, hs]
        exact ih s hInv
      · have hlt := Nat.not_le.mp hfull
        have hstep : Inv (enqueue s m).2 := by
          simpa [step] using inv_step s (Op.enq m) hInv
        simp only [enqueuedList, dequeuedList, run, enqueue_ok_fst s m hlt, step]
        have ihs := ih (enqueue s m).2 hstep
        rw [contents_enqueue s m hInv hlt, List.append_assoc] at ihs
        simpa using ihs
    | deq =>
      by_cases hempty : s.message_count = 0
      · have hs := step_deq_empty s hempty
        simp only [enqueuedList, dequeuedList, run, dequeue_empty s hempty, hs]
        exact ih s hInv
      · have hstep : Inv (dequeue s).2 := by
          simpa [step] using inv_step s Op.deq hInv
        simp only [enqueuedList, dequeuedList, run, dequeue_ok_fst s hempty, step]
        have ihs := ih (dequeue s).2 hstep
        rw [contents_dequeue s hInv hempty]
        simp only [List.cons_append]
        rw [ihs]

theorem succEnqs_eq_length (ops : List Op) (s : QueueingPort) :
    succEnqs s ops = (enqueuedList s ops).length := by
  induction ops generalizing s with
  | nil => rfl
  | cons op ops ih =>
    cases op with
    | enq m =>
      simp only [succEnqs, enqueuedList]
      cases henq : (enqueue s m).1 with
      | ok u => simp [ih, Nat.add_comm]
      | error e => simp [ih]
    | deq =>
      simpa [succEnqs, enqueuedList] using ih (step s Op.deq)

theorem succDeqs_eq_length (ops : List Op) (s : QueueingPort) :
    succDeqs s ops = (dequeuedList s ops).length := by
  induction ops generalizing s with
  | nil => rfl
  | cons op ops ih =>
    cases op with
    | enq m =>
      simpa [succDeqs, dequeuedList] using ih (step s (Op.enq m))
    | deq =>
      simp only [succDeqs, dequeuedList]
      cases hdeq : (dequeue s).1 with
      | ok msg => simp [ih, Nat.add_comm]
      | error e => simp [ih]

/-! ### The claims -/

/-- C1: strict FIFO order — for every sequence of enqueue and dequeue calls
starting from a freshly constructed port, the Nth successful dequeue returns
a payload byte-identical to the payload passed to the Nth successful
enqueue. -/
theorem C1_fifo_order (ops : List Op) (n : Nat)
    (h : n < (dequeuedList QueueingPort.new ops).length) :
    (dequeuedList QueueingPort.new ops)[n]?
      = (enqueuedList QueueingPort.new ops)[n]? := by
  have hm := fifo_main ops QueueingPort.new inv_new
  rw [contents_new, List.nil_append] at hm
  rw [hm, List.getElem?_append_left h]

theorem C1_fifo_order_witness :
    0 < (dequeuedList QueueingPort.new wOps).length ∧
    (dequeuedList QueueingPort.new wOps)[0]?
      = (enqueuedList QueueingPort.new wOps)[0]? :=
  ⟨by decide, C1_fifo_order wOps 0 (by decide)⟩

/-- C2: every state reachable from a fresh port satisfies the invariant —
occupancy in [0, capacity], both cursors in [0, capacity), and the cursor
difference congruent to occupancy modulo capacity — and every operation
preserves the invariant. -/
theorem C2_invariant (s : QueueingPort) (h : Reachable s) :
    Inv s ∧ ∀ op : Op, Inv (step s op) :=
  ⟨reachable_inv s h, fun op => inv_step s op (reachable_inv s h)⟩

theorem C2_invariant_witness :
    Reachable QueueingPort.new ∧
    (Inv QueueingPort.new ∧ ∀ op : Op, Inv (step QueueingPort.new op)) :=
  ⟨⟨[], rfl⟩, C2_invariant QueueingPort.new ⟨[], rfl⟩⟩

/-- C3: enqueue on a state whose occupancy equals the capacity fails with the
queue-full error and returns the entire state unchanged. -/
theorem C3_enqueue_full (s : QueueingPort) (m : Message)
    (h : s.message_count = MSGS) :
    enqueue s m = (Except.error QueueError.FullBuffer, s) :=
  enqueue_full s m (Nat.le_of_eq h.symm)

theorem C3_enqueue_full_witness :
    fullPort.message_count = MSGS ∧
    enqueue fullPort onesMsg = (Except.error QueueError.FullBuffer, fullPort) :=
  ⟨rfl, C3_enqueue_full fullPort onesMsg rfl⟩

/-- C4: dequeue on a state with occupancy zero fails with the queue-empty
error and returns the entire state unchanged. -/
theorem C4_dequeue_empty (s : QueueingPort) (h : s.message_count = 0) :
    dequeue s = (Except.error QueueError.EmptyBuffer, s) :=
  dequeue_empty s h

theorem C4_dequeue_empty_witness :
    QueueingPort.new.message_count = 0 ∧
    dequeue QueueingPort.new
      = (Except.error QueueError.EmptyBuffer, QueueingPort.new) :=
  ⟨rfl, C4_dequeue_empty QueueingPort.new rfl⟩

/-- C5 counterexample: dequeue does NOT clear the slot's bytes. After
enqueuing the all-ones message into a fresh port the state `portWithOne` has
occupancy 1 and read cursor 0; a successful dequeue leaves byte 0 of the slot
at the read cursor equal to 1, not 0. -/
theorem C5_clears_slot_cex :
    0 < portWithOne.message_count ∧
    portWithOne.read_index = 0 ∧
    (dequeue portWithOne).2.buffer (portWithOne.read_index * SIZE + 0) = 1 := by
  refine ⟨by decide, rfl, ?_⟩
  rw [dequeue_ok_buffer portWithOne (by decide)]
  show (enqueue QueueingPort.new onesMsg).2.buffer (0 * SIZE + 0) = 1
  rw [enqueue_ok_buffer QueueingPort.new onesMsg (by decide)]
  show copyBytes (fun _ => 0) (0 * SIZE) onesMsg.byte SIZE (0 * SIZE + 0) = 1
  rw [copyBytes_spec, if_pos ⟨Nat.le_refl _, by simp [SIZE]⟩,
    Nat.add_sub_cancel_left, Message.byte]
  rw [dif_pos (by simp [SIZE])]
  rfl

/-- C5 amended: for every port state with occupancy greater than zero, a
successful dequeue reads the slot at the read cursor into the returned
Message, advances the read cursor to (readCursor + 1) mod capacity and
decrements the occupancy, leaving the buffer — including the slot just
read — unchanged (the code does not clear the slot's bytes). -/
theorem C5_dequeue_behavior (s : QueueingPort) (h : 0 < s.message_count) :
    (dequeue s).1 = Except.ok (slotMessage s.buffer s.read_index) ∧
    (dequeue s).2.read_index = (s.read_index + 1) % MSGS ∧
    (dequeue s).2.message_count = s.message_count - 1 ∧
    (dequeue s).2.buffer = s.buffer :=
  ⟨dequeue_ok_fst s (Nat.pos_iff_ne_zero.mp h),
   dequeue_ok_read s (Nat.pos_iff_ne_zero.mp h),
   dequeue_ok_count s (Nat.pos_iff_ne_zero.mp h),
   dequeue_ok_buffer s (Nat.pos_iff_ne_zero.mp h)⟩

theorem C5_dequeue_behavior_witness :
    0 < portWithOne.message_count ∧
    ((dequeue portWithOne).1
        = Except.ok (slotMessage portWithOne.buffer portWithOne.read_index) ∧
     (dequeue portWithOne).2.read_index = (portWithOne.read_index + 1) % MSGS ∧
     (dequeue portWithOne).2.message_count = portWithOne.message_count - 1 ∧
     (dequeue portWithOne).2.buffer = portWithOne.buffer) :=
  ⟨by decide, C5_dequeue_behavior portWithOne (by decide)⟩

/-- C6: after any call sequence from a fresh port, occupancy equals the
number of successful enqueues minus the number of successful dequeues, and
is always within [0, capacity]. -/
theorem C6_occupancy_count (ops : List Op) :
    ((run QueueingPort.new ops).message_count : Int)
      = (succEnqs QueueingPort.new ops : Int)
        - (succDeqs QueueingPort.new ops : Int) ∧
    (run QueueingPort.new ops).message_count ≤ MSGS := by
  have hm := fifo_main ops QueueingPort.new inv_new
  rw [contents_new, List.nil_append] at hm
  have hlen := congrArg List.length hm
  rw [List.length_append, contents_length] at hlen
  have hinv := inv_run ops QueueingPort.new inv_new
  refine ⟨?_, hinv.1⟩
  rw [succEnqs_eq_length, succDeqs_eq_length]
  omega

/-- C7: round-trip — on any legitimate port state with occupancy zero,
enqueue of a message followed immediately by dequeue succeeds and returns a
payload byte-equal to the enqueued message. -/
theorem C7_round_trip (s : QueueingPort) (m : Message) (hInv : Inv s)
    (h : s.message_count = 0) :
    (enqueue s m).1 = Except.ok () ∧
    (dequeue (enqueue s m).2).1 = Except.ok m := by
  have hlt : s.message_count < MSGS := by rw [h]; simp [MSGS]
  refine ⟨enqueue_ok_fst s m hlt, ?_⟩
  have hcount : (enqueue s m).2.message_count ≠ 0 := by
    rw [enqueue_ok_count s m hlt]
    omega
  rw [dequeue_ok_fst _ hcount]
  refine congrArg Except.ok ?_
  rw [enqueue_ok_buffer s m hlt, enqueue_ok_read s m hlt]
  have hw : s.write_index = s.read_index := by
    have hwr := write_eq_read_add_count s hInv
    obtain ⟨h1, h2, h3, h4⟩ := hInv
    simp only [MSGS] at hwr h3
    omega
  ext i
  have hi := i.isLt
  simp only [slotMessage]
  rw [← hw, copyBytes_spec]
  split
  · rename_i hcond
    rw [Nat.add_sub_cancel_left, Message.byte, dif_pos i.isLt]
  · rename_i hcond
    exact absurd ⟨Nat.le_add_right _ _, by omega⟩ hcond

theorem C7_round_trip_witness :
    Inv QueueingPort.new ∧ QueueingPort.new.message_count = 0 ∧
    ((enqueue QueueingPort.new onesMsg).1 = Except.ok () ∧
     (dequeue (enqueue QueueingPort.new onesMsg).2).1 = Except.ok onesMsg) :=
  ⟨by decide, rfl, C7_round_trip QueueingPort.new onesMsg (by decide) rfl⟩

/-- C8: Message construction from raw bytes succeeds exactly when the input
has length `SIZE`, and fails with the `InvalidMessageSize` error value (an
ordinary result) for every input of any other length. The constructor is
modelled from the spec, since the variant under src/ declares `Message` as a
fixed-size array with no fallible constructor. -/
theorem C8_fromBytes (bytes : List Nat) :
    ((∃ m, Message.fromBytes bytes = Except.ok m) ↔ bytes.length = SIZE) ∧
    (Message.fromBytes bytes = Except.error MessageError.InvalidMessageSize
      ↔ bytes.length ≠ SIZE) := by
  by_cases h : bytes.length = SIZE
  · simp [Message.fromBytes, h]
  · simp [Message.fromBytes, h]

/-- C9: in every reachable state, every byte index computed by enqueue
(`writeCursor * SIZE + i`) and by dequeue (`readCursor * SIZE + i`) for
`i < SIZE` lies strictly within the backing buffer of `SIZE * MSGS` bytes. -/
theorem C9_index_bounds (s : QueueingPort) (i : Nat) (h : Reachable s)
    (hi : i < SIZE) :
    s.write_index * SIZE + i < SIZE * MSGS ∧
    s.read_index * SIZE + i < SIZE * MSGS := by
  have hinv := reachable_inv s h
  obtain ⟨h1, h2, h3, h4⟩ := hinv
  simp only [SIZE, MSGS] at hi h2 h3 ⊢
  omega

theorem C9_index_bounds_witness :
    Reachable QueueingPort.new ∧ 0 < SIZE ∧
    (QueueingPort.new.write_index * SIZE + 0 < SIZE * MSGS ∧
     QueueingPort.new.read_index * SIZE + 0 < SIZE * MSGS) :=
  ⟨⟨[], rfl⟩, by decide, C9_index_bounds QueueingPort.new 0 ⟨[], rfl⟩ (by decide)⟩

/-- C10: frame property — a successful enqueue modifies only the `SIZE`
bytes of the slot at the write cursor, the write cursor and the occupancy,
leaving the read cursor and all other bytes unchanged; a successful dequeue
modifies only the read cursor and the occupancy, leaving the write cursor
and every byte of the buffer (including the slot just read) unchanged. -/
theorem C10_frame (s : QueueingPort) (m : Message) :
    (s.message_count < MSGS →
      (enqueue s m).2.read_index = s.read_index ∧
      (enqueue s m).2.write_index = (s.write_index + 1) % MSGS ∧
      (enqueue s m).2.message_count = s.message_count + 1 ∧
      (∀ j, j < s.write_index * SIZE ∨ s.write_index * SIZE + SIZE ≤ j →
        (enqueue s m).2.buffer j = s.buffer j) ∧
      (∀ i, i < SIZE →
        (enqueue s m).2.buffer (s.write_index * SIZE + i) = m.byte i)) ∧
    (s.message_count ≠ 0 →
      (dequeue s).2.write_index = s.write_index ∧
      (dequeue s).2.buffer = s.buffer ∧
      (dequeue s).2.read_index = (s.read_index + 1) % MSGS ∧
      (dequeue s).2.message_count = s.message_count - 1) := by
  constructor
  · intro he
    refine ⟨enqueue_ok_read s m he, enqueue_ok_write s m he,
      enqueue_ok_count s m he, ?_, ?_⟩
    · intro j hj
      rw [enqueue_ok_buffer s m he, copyBytes_spec, if_neg (by omega)]
    · intro i hi
      rw [enqueue_ok_buffer s m he, copyBytes_spec,
        if_pos ⟨Nat.le_add_right _ _, by omega⟩, Nat.add_sub_cancel_left]
  · intro hd
    exact ⟨dequeue_ok_write s hd, dequeue_ok_buffer s hd,
      dequeue_ok_read s hd, dequeue_ok_count s hd⟩

theorem C10_frame_witness :
    portWithOne.message_count < MSGS ∧ portWithOne.message_count ≠ 0 ∧
    (((enqueue portWithOne onesMsg).2.read_index = portWithOne.read_index ∧
      (enqueue portWithOne onesMsg).2.write_index
        = (portWithOne.write_index + 1) % MSGS ∧
      (enqueue portWithOne onesMsg).2.message_count
        = portWithOne.message_count + 1 ∧
      (∀ j, j < portWithOne.write_index * SIZE ∨
          portWithOne.write_index * SIZE + SIZE ≤ j →
        (enqueue portWithOne onesMsg).2.buffer j = portWithOne.buffer j) ∧
      (∀ i, i < SIZE →
        (enqueue portWithOne onesMsg).2.buffer
          (portWithOne.write_index * SIZE + i) = onesMsg.byte i)) ∧
     ((dequeue portWithOne).2.write_index = portWithOne.write_index ∧
      (dequeue portWithOne).2.buffer = portWithOne.buffer ∧
      (dequeue portWithOne).2.read_index = (portWithOne.read_index + 1) % MSGS ∧
      (dequeue portWithOne).2.message_count = portWithOne.message_count - 1)) :=
  ⟨by decide, by decide,
   (C10_frame portWithOne onesMsg).1 (by decide),
   (C10_frame portWithOne onesMsg).2 (by decide)⟩

end QPort
